import Mathlib

/-!
Verification of the Sequential Reveal and Progress-Animation Orchestrator of
the SoundChain landing page (src/app/page.tsx), as a shallow embedding.

Numbers that the page manipulates (progress percentages, scroll offsets,
elapsed milliseconds) are modelled as rationals; counters and list indices
as naturals. Fallible operations (the external fetch) are modelled with
Option. All definitions are executable.
-/

/-! ## Progress data state and the initial fetch (page.tsx lines 11-18, 66-109)

The React state cells that the progress subsystem owns: count, goal,
targetProgress, and the animationStarted latch. The displayed progress cell
is handled by the animation loop below and is not touched by the fetch.
-/

/-- The subset of page state that fetchInitialData reads and writes:
count, goal, targetProgress (the target percentage) and the
animationStarted latch (page.tsx lines 14-18). -/
structure ProgressDataState where
  count : ℚ
  goal : ℚ
  targetProgress : ℚ
  animationStarted : Bool
deriving DecidableEq, Repr

/-- The JSON body returned by the GET on /api/send, as the client sees it:
each field may be absent or non-numeric, hence Option (page.tsx line 76).
The typeof checks on lines 78 treat a field as usable only when it is a
number. -/
structure FetchResponse where
  countField : Option ℚ
  goalField : Option ℚ
  percentageField : Option ℚ
deriving DecidableEq, Repr

/-- Embedding of fetchInitialData (page.tsx lines 68-107). The argument
result is none when the fetch (or JSON decode) throws, and some data when a
JSON object arrives. On a well-formed shape the code stores goal and count,
derives calculatedProgress as percentage when that field is present and
truthy (nonzero) and count / goal * 100 otherwise (line 85), and stores it
into targetProgress only when the animation has not started (lines 90-95).
On a malformed shape (count or goal not numeric) nothing is written (lines
96-99). On a thrown fetch the catch block writes the fallback test values
count 4000 and targetProgress 80 (lines 100-106). -/
def fetchInitialData (s : ProgressDataState) (result : Option FetchResponse) :
    ProgressDataState :=
  match result with
  | none =>
    { s with count := 4000, targetProgress := 80 }
  | some data =>
    match data.countField, data.goalField with
    | some c, some g =>
      let calculatedProgress : ℚ :=
        match data.percentageField with
        | some p => if p = 0 then c / g * 100 else p
        | none => c / g * 100
      let s1 := { s with goal := g, count := c }
      if s.animationStarted then s1
      else { s1 with targetProgress := calculatedProgress }
    | _, _ => s

/-! ## The progress animation run (page.tsx lines 679-763) -/

/-- Embedding of the guards and setup of the progress animation effect
(page.tsx lines 687-709). Returns none when no run starts: the section is
not yet visible (line 687), the target is not positive (line 692), or a run
has already started (line 697). Otherwise returns the chosen duration
(line 707: 1500 when the target exceeds the current progress, else 3500)
and the start value (line 709: the current progress). -/
def startProgressAnimation (progressVisible : Bool) (targetProgress progress : ℚ)
    (animationStarted : Bool) : Option (ℕ × ℚ) :=
  if !progressVisible then none
  else if targetProgress ≤ 0 then none
  else if animationStarted then none
  else some (if targetProgress > progress then 1500 else 3500, progress)

/-- The quintic ease-out curve (page.tsx line 718). -/
def easeOutQuint (t : ℚ) : ℚ := 1 - (1 - t) ^ 5

/-- The progress ratio of a frame: elapsed over duration, clamped at 1
(page.tsx line 722). -/
def progressFrac (elapsed duration : ℚ) : ℚ := min (elapsed / duration) 1

/-- The percentage written by a sampled frame at eased ratio r: the run
animates from startProgress toward targetProgress (page.tsx line 729). -/
def sampleAt (startProgress targetProgress r : ℚ) : ℚ :=
  startProgress + easeOutQuint r * (targetProgress - startProgress)

/-- The mutable state of one animation run: the displayed percentage
(the progress React cell), the frame counter, and whether the run has
reached its final frame (after which requestAnimationFrame is no longer
called, page.tsx lines 741-746). -/
structure AnimRunState where
  displayed : ℚ
  frameCount : ℕ
  finished : Bool
deriving DecidableEq, Repr

/-- One call of the animate callback (page.tsx lines 720-747) at a frame
whose elapsed time since the run start is elapsed. The displayed value is
written only on every 6th frame or on the final frame (line 725); the
final frame is the first whose clamped ratio reaches 1 (line 741). A
finished run receives no further frames, modelled as a no-op. -/
def animateStep (startProgress targetProgress duration : ℚ)
    (s : AnimRunState) (elapsed : ℚ) : AnimRunState :=
  if s.finished then s
  else
    let frac := progressFrac elapsed duration
    let s1 :=
      if s.frameCount % 6 == 0 || decide (1 ≤ frac) then
        { s with displayed := sampleAt startProgress targetProgress frac }
      else s
    { s1 with frameCount := s.frameCount + 1, finished := decide (1 ≤ frac) }

/-- A whole animation run: fold the animate callback over the elapsed times
of the delivered frames. The displayed cell starts at the startProgress
value (page.tsx line 709: the run animates from the current progress). -/
def runProgressAnimation (startProgress targetProgress duration : ℚ)
    (frames : List ℚ) : AnimRunState :=
  frames.foldl (animateStep startProgress targetProgress duration)
    { displayed := startProgress, frameCount := 0, finished := false }

/-! ## The rendered fill width (page.tsx line 1352) -/

/-- The width handed to the presentation layer for the progress fill:
max(0, min(progress, 100)) percent (page.tsx line 1352). -/
def renderedFillWidth (progress : ℚ) : ℚ := max 0 (min progress 100)

/-! ## Supporting lemmas for the animation run -/

/-- Sampling at eased ratio 1 lands exactly on the target. -/
theorem sampleAt_one (a b : ℚ) : sampleAt a b 1 = b := by
  unfold sampleAt easeOutQuint
  ring_nf

/-- A finished run ignores further frames. -/
theorem animateStep_of_finished (a b dur e : ℚ) (s : AnimRunState)
    (h : s.finished = true) : animateStep a b dur s e = s := by
  simp [animateStep, h]

/-- A finished run ignores any further list of frames. -/
theorem foldl_animateStep_of_finished (a b dur : ℚ) (frames : List ℚ)
    (s : AnimRunState) (h : s.finished = true) :
    frames.foldl (animateStep a b dur) s = s := by
  induction frames with
  | nil => rfl
  | cons e es ih => rw [List.foldl_cons, animateStep_of_finished a b dur e s h, ih]

/-- The frame on which a run finishes writes exactly the target value. -/
theorem animateStep_displayed_of_finished (a b dur e : ℚ) (s : AnimRunState)
    (h0 : s.finished = false) (h1 : (animateStep a b dur s e).finished = true) :
    (animateStep a b dur s e).displayed = b := by
  simp only [animateStep, h0, Bool.false_eq_true, if_false] at h1 ⊢
  simp only [decide_eq_true_eq] at h1
  have hr : progressFrac e dur = 1 := le_antisymm (min_le_right _ _) h1
  simp [hr, sampleAt_one]

/-- Generalized final-frame lemma over any unfinished starting state. -/
theorem foldl_animateStep_final (a b dur : ℚ) (frames : List ℚ) :
    ∀ s : AnimRunState, s.finished = false →
      (frames.foldl (animateStep a b dur) s).finished = true →
      (frames.foldl (animateStep a b dur) s).displayed = b := by
  induction frames with
  | nil => intro s h0 h1; rw [List.foldl_nil] at h1; rw [h0] at h1; cases h1
  | cons e es ih =>
    intro s h0 h1
    rw [List.foldl_cons] at h1 ⊢
    by_cases hf : (animateStep a b dur s e).finished = true
    · rw [foldl_animateStep_of_finished a b dur es _ hf]
      exact animateStep_displayed_of_finished a b dur e s h0 hf
    · exact ih _ (Bool.not_eq_true _ ▸ hf) h1

/-- C6: for every progress animation run that runs to completion, the final
sampled frame sets the displayed percentage exactly to the target, even
though intermediate frames are only written every 6th tick (page.tsx lines
720-747). -/
theorem c6_final_frame_exact (startP target duration : ℚ) (frames : List ℚ)
    (h : (runProgressAnimation startP target duration frames).finished = true) :
    (runProgressAnimation startP target duration frames).displayed = target :=
  foldl_animateStep_final startP target duration frames _ rfl h

/-- Witness for C6 on a concrete completing run. -/
theorem c6_witness :
    (runProgressAnimation 0 80 1500 [900, 1600]).finished = true ∧
    (runProgressAnimation 0 80 1500 [900, 1600]).displayed = 80 :=
  have h : (runProgressAnimation 0 80 1500 [900, 1600]).finished = true := by
    norm_num [runProgressAnimation, animateStep, progressFrac, min_def]
  ⟨h, c6_final_frame_exact 0 80 1500 [900, 1600] h⟩

/-- C7: for a run from 0 to 80, the sampled displayed value is strictly
increasing in elapsed time over the whole run (the quintic ease-out sampled
against elapsed/duration clamped to 1 is strictly increasing), and every
frame at or past the duration lands exactly on 80. -/
theorem c7_strict_monotone :
    (∀ e1 e2 : ℚ, 0 ≤ e1 → e1 < e2 → e1 < 1500 →
      sampleAt 0 80 (progressFrac e1 1500) < sampleAt 0 80 (progressFrac e2 1500)) ∧
    (∀ e : ℚ, 1500 ≤ e → sampleAt 0 80 (progressFrac e 1500) = 80) := by
  constructor
  · intro e1 e2 h0 h12 hlt
    have h1500 : (0:ℚ) < 1500 := by norm_num
    have hx1 : e1 / 1500 < 1 := (div_lt_one h1500).mpr hlt
    have hr1 : progressFrac e1 1500 = e1 / 1500 := min_eq_left hx1.le
    have hx12 : e1 / 1500 < e2 / 1500 := by
      exact (div_lt_div_iff_of_pos_right h1500).mpr h12
    have hr12 : progressFrac e1 1500 < progressFrac e2 1500 := by
      rw [hr1]; exact lt_min hx12 hx1
    have hr2le : progressFrac e2 1500 ≤ 1 := min_le_right _ _
    have hr1nn : 0 ≤ progressFrac e1 1500 := by
      rw [hr1]; exact div_nonneg h0 h1500.le
    have hpow : (1 - progressFrac e2 1500) ^ 5 < (1 - progressFrac e1 1500) ^ 5 := by
      apply pow_lt_pow_left₀ _ (by linarith) (by norm_num)
      linarith
    simp only [sampleAt, easeOutQuint]
    nlinarith [hpow]
  · intro e he
    have h1500 : (0:ℚ) < 1500 := by norm_num
    have : progressFrac e 1500 = 1 :=
      min_eq_right ((one_le_div h1500).mpr he)
    rw [this, sampleAt_one]

/-- Witness for C7 at concrete elapsed times. -/
theorem c7_witness :
    ((0:ℚ) ≤ 300 ∧ (300:ℚ) < 600 ∧ (300:ℚ) < 1500 ∧
      sampleAt 0 80 (progressFrac 300 1500) < sampleAt 0 80 (progressFrac 600 1500)) ∧
    ((1500:ℚ) ≤ 2000 ∧ sampleAt 0 80 (progressFrac 2000 1500) = 80) :=
  ⟨⟨by norm_num, by norm_num, by norm_num,
    c7_strict_monotone.1 300 600 (by norm_num) (by norm_num) (by norm_num)⟩,
   ⟨by norm_num, c7_strict_monotone.2 2000 (by norm_num)⟩⟩

/-- C2 counterexample: the claim states that when the external fetch fails
the previously known values remain unchanged, but the catch block of
fetchInitialData overwrites count with 4000 and targetProgress with 80
(page.tsx lines 100-106). Starting from known values count 123, goal 500,
targetPercentage 24.6, a failed fetch changes count and targetProgress. -/
theorem c2_counterexample :
    fetchInitialData ⟨123, 500, 246/10, false⟩ none = ⟨4000, 500, 80, false⟩ ∧
    (fetchInitialData ⟨123, 500, 246/10, false⟩ none).count ≠ 123 ∧
    (fetchInitialData ⟨123, 500, 246/10, false⟩ none).targetProgress ≠ 246/10 := by
  refine ⟨rfl, ?_, ?_⟩ <;> norm_num [fetchInitialData]

/-- C2 amended: a successful fetch with a malformed shape (count or goal
not numeric) performs no update at all, and a failed fetch does not clear
the state to zero but overwrites count and targetPercentage with the fixed
fallback values 4000 and 80, leaving goal and the animation latch
unchanged. -/
theorem c2_amended :
    (∀ (s : ProgressDataState) (data : FetchResponse),
      data.countField = none ∨ data.goalField = none →
      fetchInitialData s (some data) = s) ∧
    (∀ s : ProgressDataState,
      fetchInitialData s none = { s with count := 4000, targetProgress := 80 }) := by
  constructor
  · rintro s ⟨c, g, p⟩ (rfl | rfl)
    · rfl
    · cases c <;> rfl
  · intro s; rfl

/-- Witness for C2 amended, at a malformed response with a missing count. -/
theorem c2_amended_witness :
    (({ countField := none, goalField := some 5000, percentageField := none } :
        FetchResponse).countField = none ∨
      ({ countField := none, goalField := some 5000, percentageField := none } :
        FetchResponse).goalField = none) ∧
    fetchInitialData ⟨7, 9, 11, true⟩
      (some { countField := none, goalField := some 5000, percentageField := none }) =
      ⟨7, 9, 11, true⟩ :=
  ⟨Or.inl rfl,
   c2_amended.1 ⟨7, 9, 11, true⟩
     { countField := none, goalField := some 5000, percentageField := none }
     (Or.inl rfl)⟩

/-- C5 counterexample: the claim asserts that a run from 80 to 0 takes
3500ms, but a run with target 0 never starts at all: the guard on page.tsx
line 692 returns before any duration is chosen whenever the target is not
positive, whatever the visibility and latch flags are. -/
theorem c5_counterexample :
    startProgressAnimation true 0 80 false = none ∧
    startProgressAnimation true 0 80 true = none ∧
    startProgressAnimation false 0 80 false = none ∧
    startProgressAnimation false 0 80 true = none := by
  refine ⟨?_, ?_, ?_, ?_⟩ <;> norm_num [startProgressAnimation]

/-- C5 amended: whenever a run actually starts, its duration is 1500ms when
the target exceeds the start value and 3500ms otherwise; from 50 to 80 and
from 0 to 80 both take 1500ms, a decreasing run with a positive target
(80 to 40) takes 3500ms, and a run to target 0 never starts. -/
theorem c5_amended :
    (∀ (visible started : Bool) (t f : ℚ) (dur : ℕ) (sp : ℚ),
      startProgressAnimation visible t f started = some (dur, sp) →
      dur = if t > f then 1500 else 3500) ∧
    startProgressAnimation true 80 50 false = some (1500, 50) ∧
    startProgressAnimation true 80 0 false = some (1500, 0) ∧
    startProgressAnimation true 40 80 false = some (3500, 80) ∧
    startProgressAnimation true 0 80 false = none := by
  refine ⟨?_, ?_, ?_, ?_, ?_⟩
  · intro visible started t f dur sp h
    unfold startProgressAnimation at h
    split_ifs at h with h1 h2 h3 h4
    all_goals cases h
    · rw [if_pos h4]
    · rw [if_neg h4]
  all_goals norm_num [startProgressAnimation]

/-- Witness for C5 amended, on the concrete run from 50 to 80. -/
theorem c5_amended_witness :
    startProgressAnimation true 80 50 false = some (1500, 50) ∧
    (1500 : ℕ) = if (80 : ℚ) > 50 then 1500 else 3500 :=
  have h : startProgressAnimation true 80 50 false = some (1500, 50) := by
    norm_num [startProgressAnimation]
  ⟨h, c5_amended.1 true false 80 50 1500 50 h⟩

/-- C10: the fill proportion handed to the presentation layer is always the
clamp of the displayed percentage to the interval from 0 to 100, even
though the fetched target percentage itself is derived as count over goal
times 100 without clamping and can exceed 100 (page.tsx lines 85, 1352). -/
theorem c10_fill_clamped :
    (∀ p : ℚ, 0 ≤ renderedFillWidth p ∧ renderedFillWidth p ≤ 100) ∧
    (fetchInitialData ⟨0, 5000, 0, false⟩
      (some { countField := some 6000, goalField := some 5000,
              percentageField := none })).targetProgress = 120 ∧
    renderedFillWidth 120 = 100 ∧
    renderedFillWidth (-5) = 0 := by
  refine ⟨fun p => ⟨le_max_left _ _, max_le (by norm_num) (min_le_right _ _)⟩, ?_, ?_, ?_⟩
  · norm_num [fetchInitialData]
  · norm_num [renderedFillWidth]
  · norm_num [renderedFillWidth, min_def]

/-! ## The sequential reveal orchestrator (page.tsx lines 243-677)

The scroll effect builds revealOrder by pushing every element carrying a
data-reveal attribute in document order; the n registered elements are
modelled by their indices 0 to n-1. The logo is not part of revealOrder: it
is revealed by an unconditional timeout chain started at mount (animateLogo,
lines 204-241); we give it the identifier n and a pending timer of its own
kind in the initial state. Pending setTimeout callbacks are modelled as a
list of timers; delivering a visibility event and firing a pending timer
are the two kinds of atomic task of the single-threaded event loop, and a
run is an arbitrary interleaving of them, which covers every possible
arrival timing and delay assignment. -/

/-- The kind of a pending timeout: the reveal scheduled directly by
handleElementIntersection (page.tsx line 335), the reveal scheduled when a
queued element is unlocked by processPendingAnimations (line 297), or the
load-time logo animation (lines 224-236). -/
inductive TKind where
  | imm
  | unlock
  | logo
deriving DecidableEq, Repr

/-- One entry of the animationQueue map (page.tsx line 270): the element,
its data-delay value, and the canReveal flag. Insertion order of the map is
kept by using a list. -/
structure QEntry where
  elem : ℕ
  delay : ℕ
  canReveal : Bool
deriving DecidableEq, Repr

/-- The scroll tracking closure variables of the mobile title observer
(page.tsx lines 477-479): lastScrollY, scrollDirection (down as true), and
scrollStarted. -/
structure ScrollTrack where
  lastScrollY : ℚ
  down : Bool
  scrollStarted : Bool
deriving DecidableEq, Repr

/-- The closure state of the scroll reveal effect: revealedElements
(line 244), the order in which the revealed class has been applied (the
observable reveal order), the animationQueue (line 270), the pending
timeouts, and the mobile scroll tracking variables. -/
structure OrchState where
  revealedSet : List ℕ
  revealLog : List ℕ
  queue : List QEntry
  timers : List (ℕ × TKind)
  track : ScrollTrack
deriving DecidableEq, Repr

/-- The elements currently keyed in the animationQueue. -/
def queueElems (q : List QEntry) : List ℕ := q.map QEntry.elem

/-- canRevealElement (page.tsx lines 275-285): an element not in
revealOrder is refused (indexOf is -1); the first element may always
reveal; otherwise the previous element of the built order must be in
revealedElements. -/
def canRevealElement (n : ℕ) (st : OrchState) (i : ℕ) : Bool :=
  if i < n then i == 0 || decide ((i - 1) ∈ st.revealedSet) else false

/-- processPendingAnimations (page.tsx lines 288-313): walk the queue in
insertion order; every entry that is not yet unlocked and whose
predecessor test passes is marked canReveal and gets a reveal timeout of
its own delay. revealedElements is not modified during the walk, so all
membership tests use the state at entry. -/
def processPendingAnimations (n : ℕ) (st : OrchState) : OrchState :=
  { st with
    queue := st.queue.map fun q =>
      if !q.canReveal && canRevealElement n st q.elem then
        { q with canReveal := true }
      else q,
    timers := st.timers ++
      (st.queue.filter fun q => !q.canReveal && canRevealElement n st q.elem).map
        fun q => (q.elem, TKind.unlock) }

/-- handleElementIntersection (page.tsx lines 316-383): on an intersecting
event for an element that is neither in revealedElements nor queued, either
mark it revealed at once and schedule its reveal timeout (lines 330-369),
or queue it (lines 370-374). Every other event changes nothing. -/
def handleElementIntersection (n : ℕ) (d : ℕ → ℕ) (i : ℕ) (isIntersecting : Bool)
    (st : OrchState) : OrchState :=
  if isIntersecting && !decide (i ∈ st.revealedSet) && !decide (i ∈ queueElems st.queue) then
    if canRevealElement n st i then
      { st with revealedSet := i :: st.revealedSet, timers := st.timers ++ [(i, TKind.imm)] }
    else
      { st with queue := st.queue ++ [⟨i, d i, false⟩] }
  else st

/-- Remove one pending timeout (a fired setTimeout callback is gone). -/
def eraseTimer : List (ℕ × TKind) → ℕ × TKind → List (ℕ × TKind)
  | [], _ => []
  | t :: ts, p => if t = p then ts else t :: eraseTimer ts p

/-- Firing a pending timeout. An imm timer applies the revealed class and
then runs processPendingAnimations (page.tsx lines 335-369). An unlock
timer applies the revealed class, adds the element to revealedElements,
deletes its queue entry and runs processPendingAnimations (lines 297-310).
The logo timer only makes the logo visible (lines 224-236). Firing a timer
that is not pending is a no-op. -/
def fireTimer (n : ℕ) (e : ℕ) (k : TKind) (st : OrchState) : OrchState :=
  if decide ((e, k) ∈ st.timers) then
    let st1 := { st with timers := eraseTimer st.timers (e, k) }
    match k with
    | TKind.imm =>
      processPendingAnimations n { st1 with revealLog := st1.revealLog ++ [e] }
    | TKind.unlock =>
      processPendingAnimations n
        { st1 with
          revealLog := st1.revealLog ++ [e],
          revealedSet := e :: st1.revealedSet,
          queue := st1.queue.filter fun q => !decide (q.elem = e) }
    | TKind.logo => { st1 with revealLog := st1.revealLog ++ [e] }
  else st

/-- The standard and footer observer callbacks (page.tsx lines 394-472 and
528-550) for a non-title element: only the n registered elements are
observed, and an element already carrying the revealed class is skipped
(lines 413, 536). -/
def observerEvent (n : ℕ) (d : ℕ → ℕ) (i : ℕ) (isIntersecting : Bool)
    (st : OrchState) : OrchState :=
  if decide (i < n) && !decide (i ∈ st.revealLog) then
    handleElementIntersection n d i isIntersecting st
  else st

/-- The desktop-title path of the standard observer callback (page.tsx
lines 412-462): the title is element 0 of the built order; an intersecting
event is discarded while the scroll offset is 0 or less than 1000ms have
passed since page load (lines 420-453); otherwise the event reaches
handleElementIntersection. -/
def desktopTitleEvent (n : ℕ) (d : ℕ → ℕ) (scrollY tSinceLoad : ℚ)
    (isIntersecting : Bool) (st : OrchState) : OrchState :=
  if decide (0 < n) && !decide (0 ∈ st.revealLog) then
    if (decide (scrollY = 0) || decide (tSinceLoad < 1000)) && isIntersecting then st
    else handleElementIntersection n d 0 isIntersecting st
  else st

/-- The scroll tracking update of the mobile title observer (page.tsx lines
491-501): a larger offset than last time records direction down and, past
10px, that the user started scrolling; a smaller offset records direction
up; lastScrollY is always updated. -/
def updateScrollTrack (cur : ℚ) (tr : ScrollTrack) : ScrollTrack :=
  if decide (tr.lastScrollY < cur) then
    { lastScrollY := cur, down := true,
      scrollStarted := tr.scrollStarted || decide (10 < cur) }
  else if decide (cur < tr.lastScrollY) then
    { lastScrollY := cur, down := false, scrollStarted := tr.scrollStarted }
  else
    { tr with lastScrollY := cur }

/-- The mobile title observer callback (page.tsx lines 482-525): skipped
entirely once the title carries the revealed class; otherwise the scroll
tracking is updated, and the event reaches handleElementIntersection only
when it intersects with offset above 50px after a user-initiated scroll
whose latest movement is downward (line 512). -/
def mobileTitleEvent (n : ℕ) (d : ℕ → ℕ) (scrollY : ℚ) (isIntersecting : Bool)
    (st : OrchState) : OrchState :=
  if decide (0 < n) && !decide (0 ∈ st.revealLog) then
    let tr := updateScrollTrack scrollY st.track
    let st1 := { st with track := tr }
    if isIntersecting && decide (50 < scrollY) && tr.scrollStarted && tr.down then
      handleElementIntersection n d 0 isIntersecting st1
    else st1
  else st

/-- One atomic task of the single-threaded event loop: a visibility event
delivered through one of the three observers, or a pending timeout firing. -/
inductive RevealCmd where
  | std (i : ℕ) (isIntersecting : Bool)
  | dTitle (scrollY tSinceLoad : ℚ) (isIntersecting : Bool)
  | mTitle (scrollY : ℚ) (isIntersecting : Bool)
  | fire (e : ℕ) (k : TKind)
deriving DecidableEq, Repr

/-- Dispatch one task. -/
def stepCmd (n : ℕ) (d : ℕ → ℕ) (st : OrchState) : RevealCmd → OrchState
  | RevealCmd.std i b => observerEvent n d i b st
  | RevealCmd.dTitle y t b => desktopTitleEvent n d y t b st
  | RevealCmd.mTitle y b => mobileTitleEvent n d y b st
  | RevealCmd.fire e k => fireTimer n e k st

/-- The state right after mount: nothing revealed, nothing queued, the logo
animation timeout pending (page.tsx lines 240-272, 477-479). -/
def initState (n : ℕ) : OrchState :=
  { revealedSet := [], revealLog := [], queue := [], timers := [(n, TKind.logo)],
    track := { lastScrollY := 0, down := true, scrollStarted := false } }

/-- A whole page session: fold the delivered tasks over the mount state. -/
def runCmds (n : ℕ) (d : ℕ → ℕ) (cmds : List RevealCmd) : OrchState :=
  cmds.foldl (stepCmd n d) (initState n)

/-- The delay function with all data-delay attributes zero (the attribute
defaults to 0 when absent, page.tsx line 323). -/
def zeroDelays : ℕ → ℕ := fun _ => 0

/-- The desktop data-delay attributes of the six registered elements in
document order (page.tsx lines 1209, 1215, 1241, 1339, 1459, 1523). -/
def pageDelays : ℕ → ℕ := fun i => [0, 200, 400, 600, 800, 1400].getD i 0

/-- C8: for the headline on desktop, a qualifying event at scroll offset 0
never reveals no matter how long after load it arrives, a qualifying event
earlier than 1000ms after load never reveals, and a qualifying event with
positive offset at or after 1000ms marks the pending title (element 0 of
the built order) revealed and schedules its reveal timeout (page.tsx lines
412-459, 246-248). -/
theorem c8_desktop_title_gate :
    (∀ (n : ℕ) (d : ℕ → ℕ) (st : OrchState) (t : ℚ) (inter : Bool),
      desktopTitleEvent n d 0 t inter st = st) ∧
    (∀ (n : ℕ) (d : ℕ → ℕ) (st : OrchState) (y t : ℚ) (inter : Bool), t < 1000 →
      desktopTitleEvent n d y t inter st = st) ∧
    (∀ (n : ℕ) (d : ℕ → ℕ) (st : OrchState) (y t : ℚ), 0 < y → 1000 ≤ t → 0 < n →
      0 ∉ st.revealedSet → 0 ∉ queueElems st.queue → 0 ∉ st.revealLog →
      desktopTitleEvent n d y t true st =
        { st with revealedSet := 0 :: st.revealedSet,
                  timers := st.timers ++ [(0, TKind.imm)] }) := by
  refine ⟨?_, ?_, ?_⟩
  · intro n d st t inter
    unfold desktopTitleEvent handleElementIntersection
    cases inter <;> simp
  · intro n d st y t inter ht
    unfold desktopTitleEvent handleElementIntersection
    cases inter <;> simp [ht]
  · intro n d st y t hy ht hn hset hq hlog
    unfold desktopTitleEvent handleElementIntersection canRevealElement
    simp [hn, hset, hq, hlog, hy.ne', not_lt.mpr ht]

/-- Witness for C8 on the concrete landing page (6 registered elements),
in the blocked case at 800ms and the revealing case at offset 5 and
1200ms. -/
theorem c8_witness :
    ((800 : ℚ) < 1000 ∧
      desktopTitleEvent 6 pageDelays 5 800 true (initState 6) = initState 6) ∧
    ((0 : ℚ) < 5 ∧ (1000 : ℚ) ≤ 1200 ∧ 0 < 6 ∧
      desktopTitleEvent 6 pageDelays 5 1200 true (initState 6) =
        { initState 6 with revealedSet := 0 :: (initState 6).revealedSet,
                           timers := (initState 6).timers ++ [(0, TKind.imm)] }) :=
  ⟨⟨by decide, c8_desktop_title_gate.2.1 6 pageDelays (initState 6) 5 800 true (by decide)⟩,
   ⟨by decide, by decide, by decide,
    c8_desktop_title_gate.2.2 6 pageDelays (initState 6) 5 1200 (by decide) (by decide)
      (by decide) (by decide) (by decide) (by decide)⟩⟩

/-- C9: for the headline on mobile, an event at scroll offset 40 never
changes the reveal state (40 does not exceed the 50px requirement,
page.tsx line 512), while an event at offset 60 whose updated scroll
tracking shows a user-initiated scroll whose latest movement is downward
marks the pending title revealed and schedules its reveal timeout. -/
theorem c9_mobile_title_gate :
    (∀ (n : ℕ) (d : ℕ → ℕ) (st : OrchState) (inter : Bool),
      (mobileTitleEvent n d 40 inter st).revealedSet = st.revealedSet ∧
      (mobileTitleEvent n d 40 inter st).revealLog = st.revealLog ∧
      (mobileTitleEvent n d 40 inter st).queue = st.queue ∧
      (mobileTitleEvent n d 40 inter st).timers = st.timers) ∧
    (∀ (n : ℕ) (d : ℕ → ℕ) (st : OrchState),
      (updateScrollTrack 60 st.track).scrollStarted = true →
      (updateScrollTrack 60 st.track).down = true →
      0 < n → 0 ∉ st.revealedSet → 0 ∉ queueElems st.queue → 0 ∉ st.revealLog →
      mobileTitleEvent n d 60 true st =
        { st with track := updateScrollTrack 60 st.track,
                  revealedSet := 0 :: st.revealedSet,
                  timers := st.timers ++ [(0, TKind.imm)] }) := by
  constructor
  · intro n d st inter
    have h50 : decide ((50 : ℚ) < 40) = false := by decide
    unfold mobileTitleEvent
    by_cases h : (decide (0 < n) && !decide (0 ∈ st.revealLog)) = true
    · simp [h, h50]
    · rw [if_neg h]
      exact ⟨rfl, rfl, rfl, rfl⟩
  · intro n d st hstart hdown hn hset hq hlog
    have h50 : decide ((50 : ℚ) < 60) = true := by decide
    unfold mobileTitleEvent handleElementIntersection canRevealElement
    simp [hn, hset, hq, hlog, hstart, hdown, h50]

/-- Witness for C9: at mount (lastScrollY 0), an event at offset 40 leaves
the reveal state alone, and an event at offset 60 (a downward movement past
the 10px threshold recorded in this very callback) reveals the pending
title. -/
theorem c9_witness :
    ((mobileTitleEvent 6 pageDelays 40 true (initState 6)).revealedSet =
        (initState 6).revealedSet ∧
      (mobileTitleEvent 6 pageDelays 40 true (initState 6)).revealLog =
        (initState 6).revealLog ∧
      (mobileTitleEvent 6 pageDelays 40 true (initState 6)).queue =
        (initState 6).queue ∧
      (mobileTitleEvent 6 pageDelays 40 true (initState 6)).timers =
        (initState 6).timers) ∧
    ((updateScrollTrack 60 (initState 6).track).scrollStarted = true ∧
      (updateScrollTrack 60 (initState 6).track).down = true ∧
      mobileTitleEvent 6 pageDelays 60 true (initState 6) =
        { initState 6 with track := updateScrollTrack 60 (initState 6).track,
                           revealedSet := 0 :: (initState 6).revealedSet,
                           timers := (initState 6).timers ++ [(0, TKind.imm)] }) :=
  ⟨c9_mobile_title_gate.1 6 pageDelays (initState 6) true,
   ⟨by decide, by decide,
    c9_mobile_title_gate.2 6 pageDelays (initState 6) (by decide) (by decide)
      (by decide) (by decide) (by decide) (by decide)⟩⟩

/-- C3 counterexample: with two registered elements and zero delays, element
1 receives its qualifying event while its predecessor 0 has not yet
Revealed (the revealed class is applied only when the pending timeout
fires, and the reveal log is still empty), yet element 1 is never Queued:
the queue stays empty, element 1 enters revealedElements at once, and after
its timeout fires element 1 displays while element 0 is still not Revealed.
This refutes the claim as stated. -/
theorem c3_counterexample :
    (runCmds 2 zeroDelays [RevealCmd.std 0 true]).revealLog = [] ∧
    (runCmds 2 zeroDelays [RevealCmd.std 0 true]).revealedSet = [0] ∧
    (runCmds 2 zeroDelays [RevealCmd.std 0 true, RevealCmd.std 1 true]).queue = [] ∧
    (runCmds 2 zeroDelays [RevealCmd.std 0 true, RevealCmd.std 1 true]).revealedSet =
      [1, 0] ∧
    (runCmds 2 zeroDelays [RevealCmd.std 0 true, RevealCmd.std 1 true,
      RevealCmd.fire 1 TKind.imm]).revealLog = [1] := by
  decide

/-- The observer-event content of a task, used to state which visibility
events a run delivers and in which order they are processed. Timer fires
carry no event; the two title observers are tagged with sentinels outside
the element range so that a scenario over standard elements excludes them. -/
def cmdEvents : RevealCmd → Option (ℕ × Bool)
  | RevealCmd.std i b => some (i, b)
  | RevealCmd.dTitle _ _ b => some (99, b)
  | RevealCmd.mTitle _ b => some (98, b)
  | RevealCmd.fire _ _ => none

/-- C1 counterexample, in two parts, for the scenario of five group-0
elements 0 to 4 registered in document order with the group-1 logo element
(identifier 5) revealed by its own load timer. First, with the five
qualifying events delivered in reverse document order, every interleaving
constraint of the claim is met, yet the logo timer can fire after all five
reveal timeouts (its 250ms load delay is independent of the element
delays), so the group-1 element is revealed last, not first. Second, if the
same five qualifying events are processed in ascending order instead, the
five immediate reveal timeouts are all scheduled at once and fire in delay
order, so with delays 1000,0,0,0,0 the final reveal order of the group-0
elements is 1,2,3,4,0, not ascending document order: the outcome does
depend on the order in which events of one batch are processed. -/
theorem c1_counterexample :
    ([RevealCmd.std 4 true, RevealCmd.std 3 true, RevealCmd.std 2 true,
      RevealCmd.std 1 true, RevealCmd.std 0 true, RevealCmd.fire 0 TKind.imm,
      RevealCmd.fire 1 TKind.unlock, RevealCmd.fire 2 TKind.unlock,
      RevealCmd.fire 3 TKind.unlock, RevealCmd.fire 4 TKind.unlock,
      RevealCmd.fire 5 TKind.logo].filterMap cmdEvents =
      [(4, true), (3, true), (2, true), (1, true), (0, true)]) ∧
    (runCmds 5 zeroDelays
      [RevealCmd.std 4 true, RevealCmd.std 3 true, RevealCmd.std 2 true,
       RevealCmd.std 1 true, RevealCmd.std 0 true, RevealCmd.fire 0 TKind.imm,
       RevealCmd.fire 1 TKind.unlock, RevealCmd.fire 2 TKind.unlock,
       RevealCmd.fire 3 TKind.unlock, RevealCmd.fire 4 TKind.unlock,
       RevealCmd.fire 5 TKind.logo]).revealLog = [0, 1, 2, 3, 4, 5] ∧
    (runCmds 5 zeroDelays
      [RevealCmd.std 0 true, RevealCmd.std 1 true, RevealCmd.std 2 true,
       RevealCmd.std 3 true, RevealCmd.std 4 true, RevealCmd.fire 1 TKind.imm,
       RevealCmd.fire 2 TKind.imm, RevealCmd.fire 3 TKind.imm,
       RevealCmd.fire 4 TKind.imm, RevealCmd.fire 0 TKind.imm]).revealLog.filter
      (fun e => decide (e < 5)) = [1, 2, 3, 4, 0] := by
  decide

/-! ## Well-formedness of the orchestrator state

The invariant below captures the closure facts the scroll effect maintains:
the revealed class is only ever applied to revealedElements members (or the
logo), each element is logged at most once, queue keys are unique and
disjoint from revealedElements, every pending timeout belongs to exactly
one element and matches its bookkeeping, and revealedElements is downward
closed along the built order. -/

/-- Unfolding of a successful canRevealElement test. -/
theorem canRevealElement_true {n : ℕ} {st : OrchState} {i : ℕ}
    (h : canRevealElement n st i = true) :
    i < n ∧ (i = 0 ∨ i - 1 ∈ st.revealedSet) := by
  unfold canRevealElement at h
  split at h
  case isTrue hlt =>
    simp only [Bool.or_eq_true, beq_iff_eq, decide_eq_true_eq] at h
    exact ⟨hlt, h⟩
  case isFalse => cases h

/-- Removing a fired timeout yields a sublist of the pending timeouts. -/
theorem eraseTimer_sublist (l : List (ℕ × TKind)) (p : ℕ × TKind) :
    List.Sublist (eraseTimer l p) l := by
  induction l with
  | nil => exact List.Sublist.refl _
  | cons t ts ih =>
    unfold eraseTimer
    by_cases h : t = p
    · rw [if_pos h]; exact List.sublist_cons_self t ts
    · rw [if_neg h]; exact ih.cons₂ t

/-- Members surviving a timeout removal were pending before. -/
theorem eraseTimer_mem {l : List (ℕ × TKind)} {p q : ℕ × TKind}
    (h : q ∈ eraseTimer l p) : q ∈ l := (eraseTimer_sublist l p).subset h

/-- When the pending timeouts have pairwise distinct elements and the fired
one is pending, no surviving timeout belongs to the fired element. -/
theorem eraseTimer_fst_ne {l : List (ℕ × TKind)} {e : ℕ} {k : TKind}
    (hnd : (l.map Prod.fst).Nodup) (hmem : (e, k) ∈ l) :
    ∀ p ∈ eraseTimer l (e, k), p.1 ≠ e := by
  induction l with
  | nil => intro p hp; cases hp
  | cons t ts ih =>
    rw [List.map_cons, List.nodup_cons] at hnd
    unfold eraseTimer
    by_cases h : t = (e, k)
    · rw [if_pos h]
      intro p hp hpe
      have hmm : p.1 ∈ ts.map Prod.fst := List.mem_map_of_mem Prod.fst hp
      rw [hpe] at hmm
      rw [h] at hnd
      exact hnd.1 hmm
    · rw [if_neg h]
      have hmem' : (e, k) ∈ ts := by
        rcases List.mem_cons.mp hmem with h' | h'
        · exact absurd h'.symm h
        · exact h'
      have hemm : e ∈ ts.map Prod.fst := List.mem_map_of_mem Prod.fst hmem'
      intro p hp
      rcases List.mem_cons.mp hp with rfl | hp'
      · intro hte
        rw [← hte] at hemm
        exact hnd.1 hemm
      · exact ih hnd.2 hmem' p hp'

/-- The closure facts the scroll effect maintains about its state. -/
structure WF (n : ℕ) (st : OrchState) : Prop where
  logSet : ∀ e ∈ st.revealLog, e = n ∨ e ∈ st.revealedSet
  logNd : st.revealLog.Nodup
  queueNd : (queueElems st.queue).Nodup
  queueSet : ∀ q ∈ st.queue, q.elem ∉ st.revealedSet
  queueLt : ∀ q ∈ st.queue, q.elem < n
  timerImm : ∀ e : ℕ, (e, TKind.imm) ∈ st.timers → e ∈ st.revealedSet
  timerUnlock : ∀ e : ℕ, (e, TKind.unlock) ∈ st.timers →
    ∃ q ∈ st.queue, q.elem = e ∧ q.canReveal = true
  timerLogo : ∀ e : ℕ, (e, TKind.logo) ∈ st.timers → e = n
  timerNd : (st.timers.map Prod.fst).Nodup
  timerLog : ∀ p ∈ st.timers, p.1 ∉ st.revealLog
  setChain : ∀ e ∈ st.revealedSet, e = 0 ∨ e - 1 ∈ st.revealedSet
  setLt : ∀ e ∈ st.revealedSet, e < n
  queueChain : ∀ q ∈ st.queue, q.canReveal = true →
    q.elem = 0 ∨ q.elem - 1 ∈ st.revealedSet

/-- The mount state is well formed. -/
theorem wf_init (n : ℕ) : WF n (initState n) := by
  constructor <;> simp [initState, queueElems]

/-- handleElementIntersection preserves well-formedness for a registered
element that does not yet carry the revealed class. -/
theorem wf_handle {n : ℕ} {d : ℕ → ℕ} {st : OrchState} {i : ℕ} {b : Bool}
    (hwf : WF n st) (hlt : i < n) (hlog : i ∉ st.revealLog) :
    WF n (handleElementIntersection n d i b st) := by
  unfold handleElementIntersection
  by_cases hguard :
      (b && !decide (i ∈ st.revealedSet) && !decide (i ∈ queueElems st.queue)) = true
  case neg => rw [if_neg hguard]; exact hwf
  case pos =>
    rw [if_pos hguard]
    simp only [Bool.and_eq_true, Bool.not_eq_true', decide_eq_false_iff_not] at hguard
    obtain ⟨⟨-, hset⟩, hq⟩ := hguard
    by_cases hcan : canRevealElement n st i = true
    · rw [if_pos hcan]
      obtain ⟨-, hichain⟩ := canRevealElement_true hcan
      have hfresh : i ∉ st.timers.map Prod.fst := by
        intro hmem
        obtain ⟨⟨pe, pk⟩, hp, hpe⟩ := List.mem_map.mp hmem
        cases hpe
        cases pk
        · exact hset (hwf.timerImm _ hp)
        · obtain ⟨q, hq', hqe, -⟩ := hwf.timerUnlock _ hp
          exact hq (hqe ▸ List.mem_map_of_mem QEntry.elem hq')
        · exact absurd (hwf.timerLogo _ hp) (Nat.ne_of_lt hlt)
      refine ⟨?_, hwf.logNd, hwf.queueNd, ?_, hwf.queueLt, ?_, ?_, ?_, ?_, ?_, ?_, ?_, ?_⟩
      · intro e he
        rcases hwf.logSet e he with h | h
        · exact Or.inl h
        · exact Or.inr (List.mem_cons_of_mem _ h)
      · intro q hq'
        have := hwf.queueSet q hq'
        intro hmem
        rcases List.mem_cons.mp hmem with h | h
        · exact hq (h ▸ List.mem_map_of_mem QEntry.elem hq')
        · exact this h
      · intro e he
        rcases List.mem_append.mp he with h | h
        · exact List.mem_cons_of_mem _ (hwf.timerImm e h)
        · rw [List.mem_singleton] at h
          cases h
          exact List.mem_cons_self _ _
      · intro e he
        rcases List.mem_append.mp he with h | h
        · exact hwf.timerUnlock e h
        · rw [List.mem_singleton] at h
          cases h
      · intro e he
        rcases List.mem_append.mp he with h | h
        · exact hwf.timerLogo e h
        · rw [List.mem_singleton] at h
          cases h
      · rw [List.map_append, List.nodup_append]
        refine ⟨hwf.timerNd, List.nodup_singleton _, fun e he h2 => ?_⟩
        simp only [List.map_cons, List.map_nil, List.mem_singleton] at h2
        rw [h2] at he
        exact hfresh he
      · intro p hp
        rcases List.mem_append.mp hp with h | h
        · exact hwf.timerLog p h
        · rw [List.mem_singleton] at h
          cases h
          exact hlog
      · intro e he
        rcases List.mem_cons.mp he with rfl | h
        · rcases hichain with h0 | h1
          · exact Or.inl h0
          · exact Or.inr (List.mem_cons_of_mem _ h1)
        · rcases hwf.setChain e h with h0 | h1
          · exact Or.inl h0
          · exact Or.inr (List.mem_cons_of_mem _ h1)
      · intro e he
        rcases List.mem_cons.mp he with rfl | h
        · exact hlt
        · exact hwf.setLt e h
      · intro q hq' hcr
        rcases hwf.queueChain q hq' hcr with h0 | h1
        · exact Or.inl h0
        · exact Or.inr (List.mem_cons_of_mem _ h1)
    · rw [if_neg hcan]
      refine ⟨hwf.logSet, hwf.logNd, ?_, ?_, ?_, ?_, ?_, hwf.timerLogo, hwf.timerNd,
        hwf.timerLog, hwf.setChain, hwf.setLt, ?_⟩
      · unfold queueElems
        rw [List.map_append, List.nodup_append]
        refine ⟨hwf.queueNd, List.nodup_singleton _, fun e he h2 => ?_⟩
        simp only [List.map_cons, List.map_nil, List.mem_singleton] at h2
        rw [h2] at he
        exact hq he
      · intro q hq'
        rcases List.mem_append.mp hq' with h | h
        · exact hwf.queueSet q h
        · rw [List.mem_singleton] at h
          cases h
          exact hset
      · intro q hq'
        rcases List.mem_append.mp hq' with h | h
        · exact hwf.queueLt q h
        · rw [List.mem_singleton] at h
          cases h
          exact hlt
      · intro e he
        exact hwf.timerImm e he
      · intro e he
        obtain ⟨q, hq', hqe, hcr⟩ := hwf.timerUnlock e he
        exact ⟨q, List.mem_append.mpr (Or.inl hq'), hqe, hcr⟩
      · intro q hq' hcr
        rcases List.mem_append.mp hq' with h | h
        · exact hwf.queueChain q h hcr
        · rw [List.mem_singleton] at h
          cases h
          cases hcr

/-- processPendingAnimations preserves well-formedness. -/
theorem wf_processPending {n : ℕ} {st : OrchState} (hwf : WF n st) :
    WF n (processPendingAnimations n st) := by
  unfold processPendingAnimations
  set predQ := fun q : QEntry => !q.canReveal && canRevealElement n st q.elem with hpred
  set flipF := fun q : QEntry =>
    if !q.canReveal && canRevealElement n st q.elem then { q with canReveal := true }
    else q with hflip
  have elem_flip : ∀ q : QEntry, (flipF q).elem = q.elem := by
    intro q
    rw [hflip]
    dsimp only
    split <;> rfl
  have elems_eq : queueElems (st.queue.map flipF) = queueElems st.queue := by
    unfold queueElems
    rw [List.map_map]
    exact List.map_congr_left fun q _ => elem_flip q
  have newT_fst : (((st.queue.filter predQ).map fun q => (q.elem, TKind.unlock)).map
      Prod.fst) = (st.queue.filter predQ).map QEntry.elem := by
    rw [List.map_map]
    rfl
  refine ⟨hwf.logSet, hwf.logNd, ?_, ?_, ?_, ?_, ?_, ?_, ?_, ?_, hwf.setChain,
    hwf.setLt, ?_⟩
  · exact elems_eq ▸ hwf.queueNd
  · intro q' hq'
    obtain ⟨q, hq, rfl⟩ := List.mem_map.mp hq'
    rw [elem_flip]
    exact hwf.queueSet q hq
  · intro q' hq'
    obtain ⟨q, hq, rfl⟩ := List.mem_map.mp hq'
    rw [elem_flip]
    exact hwf.queueLt q hq
  · intro e he
    rcases List.mem_append.mp he with h | h
    · exact hwf.timerImm e h
    · obtain ⟨q, -, hq2⟩ := List.mem_map.mp h
      cases hq2
  · intro e he
    rcases List.mem_append.mp he with h | h
    · obtain ⟨q, hq, hqe, hcr⟩ := hwf.timerUnlock e h
      refine ⟨flipF q, List.mem_map_of_mem flipF hq, ?_, ?_⟩
      · rw [elem_flip]; exact hqe
      · simp [hflip, hcr]
    · obtain ⟨q, hq, hq2⟩ := List.mem_map.mp h
      rw [List.mem_filter] at hq
      obtain ⟨hqmem, hqpred⟩ := hq
      obtain ⟨hqe, -⟩ := Prod.mk.injEq .. |>.mp hq2
      refine ⟨flipF q, List.mem_map_of_mem flipF hqmem, ?_, ?_⟩
      · rw [elem_flip]; exact hqe
      · have hb : (!q.canReveal && canRevealElement n st q.elem) = true := hqpred
        rw [hflip]
        dsimp only
        rw [if_pos hb]
  · intro e he
    rcases List.mem_append.mp he with h | h
    · exact hwf.timerLogo e h
    · obtain ⟨q, -, hq2⟩ := List.mem_map.mp h
      cases hq2
  · rw [List.map_append, List.nodup_append, newT_fst]
    refine ⟨hwf.timerNd, ?_, ?_⟩
    · exact ((List.filter_sublist _).map QEntry.elem).nodup hwf.queueNd
    · intro e he h2
      obtain ⟨q, hq, rfl⟩ := List.mem_map.mp h2
      rw [List.mem_filter] at hq
      obtain ⟨hqmem, hqpred⟩ := hq
      obtain ⟨⟨pe, pk⟩, hp, hpe⟩ := List.mem_map.mp he
      cases hpe
      cases pk
      · exact hwf.queueSet q hqmem (hwf.timerImm _ hp)
      · obtain ⟨q', hq', hq'e, hq'cr⟩ := hwf.timerUnlock _ hp
        have hqq : q' = q := by
          apply List.inj_on_of_nodup_map hwf.queueNd hq' hqmem
          rw [hq'e]
        have hb : (!q.canReveal && canRevealElement n st q.elem) = true := hqpred
        rw [hqq] at hq'cr
        rw [hq'cr] at hb
        simp at hb
      · exact absurd (hwf.timerLogo _ hp) (Nat.ne_of_lt (hwf.queueLt q hqmem))
  · intro p hp
    rcases List.mem_append.mp hp with h | h
    · exact hwf.timerLog p h
    · obtain ⟨q, hq, rfl⟩ := List.mem_map.mp h
      rw [List.mem_filter] at hq
      intro hmem
      rcases hwf.logSet _ hmem with h1 | h1
      · exact Nat.ne_of_lt (hwf.queueLt q hq.1) h1
      · exact hwf.queueSet q hq.1 h1
  · intro q' hq' hcr
    obtain ⟨q, hq, rfl⟩ := List.mem_map.mp hq'
    rw [elem_flip]
    rw [hflip] at hcr
    dsimp only at hcr
    by_cases hb : (!q.canReveal && canRevealElement n st q.elem) = true
    · have hb' : !q.canReveal = true ∧ canRevealElement n st q.elem = true := by
        simpa using hb
      rcases (canRevealElement_true hb'.2).2 with h0 | h1
      · exact Or.inl h0
      · exact Or.inr h1
    · rw [if_neg hb] at hcr
      exact hwf.queueChain q hq hcr

/-- Firing a timeout that is not pending changes nothing. -/
theorem fireTimer_not_mem {n e : ℕ} {k : TKind} {st : OrchState}
    (h : (e, k) ∉ st.timers) : fireTimer n e k st = st := by
  unfold fireTimer
  rw [if_neg (by simpa using h)]

/-- Firing any timeout preserves well-formedness. -/
theorem wf_fire {n : ℕ} {st : OrchState} (e : ℕ) (k : TKind) (hwf : WF n st) :
    WF n (fireTimer n e k st) := by
  by_cases hmem : (e, k) ∈ st.timers
  case neg => rw [fireTimer_not_mem hmem]; exact hwf
  case pos =>
    unfold fireTimer
    rw [if_pos (by simpa using hmem)]
    have hsub := eraseTimer_sublist st.timers (e, k)
    have hlognd : (st.revealLog ++ [e]).Nodup := by
      rw [List.nodup_append]
      refine ⟨hwf.logNd, List.nodup_singleton _, fun x hx h2 => ?_⟩
      rw [List.mem_singleton] at h2
      exact hwf.timerLog (e, k) hmem (h2 ▸ hx)
    have htlog : ∀ p ∈ eraseTimer st.timers (e, k), p.1 ∉ st.revealLog ++ [e] := by
      intro p hp hmem2
      rcases List.mem_append.mp hmem2 with h | h
      · exact hwf.timerLog p (hsub.subset hp) h
      · rw [List.mem_singleton] at h
        exact eraseTimer_fst_ne hwf.timerNd hmem p hp h
    cases k
    case imm =>
      apply wf_processPending
      have hse : e ∈ st.revealedSet := hwf.timerImm e hmem
      refine ⟨?_, hlognd, hwf.queueNd, hwf.queueSet, hwf.queueLt, ?_, ?_, ?_, ?_,
        htlog, hwf.setChain, hwf.setLt, hwf.queueChain⟩
      · intro x hx
        rcases List.mem_append.mp hx with h | h
        · exact hwf.logSet x h
        · rw [List.mem_singleton] at h
          exact Or.inr (h ▸ hse)
      · intro x hx; exact hwf.timerImm x (hsub.subset hx)
      · intro x hx; exact hwf.timerUnlock x (hsub.subset hx)
      · intro x hx; exact hwf.timerLogo x (hsub.subset hx)
      · exact (hsub.map Prod.fst).nodup hwf.timerNd
    case unlock =>
      apply wf_processPending
      obtain ⟨qe, hqmem, hqelem, hqcr⟩ := hwf.timerUnlock e hmem
      have hse : e ∉ st.revealedSet := hqelem ▸ hwf.queueSet qe hqmem
      have hlt : e < n := hqelem ▸ hwf.queueLt qe hqmem
      have hchain : e = 0 ∨ e - 1 ∈ st.revealedSet :=
        hqelem ▸ hwf.queueChain qe hqmem hqcr
      refine ⟨?_, hlognd, ?_, ?_, ?_, ?_, ?_, ?_, ?_, htlog, ?_, ?_, ?_⟩
      · intro x hx
        rcases List.mem_append.mp hx with h | h
        · rcases hwf.logSet x h with h1 | h1
          · exact Or.inl h1
          · exact Or.inr (List.mem_cons_of_mem _ h1)
        · rw [List.mem_singleton] at h
          exact Or.inr (h ▸ List.mem_cons_self _ _)
      · exact ((List.filter_sublist _).map QEntry.elem).nodup hwf.queueNd
      · intro q hq
        rw [List.mem_filter] at hq
        obtain ⟨hq1, hq2⟩ := hq
        simp only [Bool.not_eq_true', decide_eq_false_iff_not] at hq2
        intro hmem2
        rcases List.mem_cons.mp hmem2 with h | h
        · exact hq2 h
        · exact hwf.queueSet q hq1 h
      · intro q hq
        rw [List.mem_filter] at hq
        exact hwf.queueLt q hq.1
      · intro x hx
        exact List.mem_cons_of_mem _ (hwf.timerImm x (hsub.subset hx))
      · intro x hx
        have hxe : x ≠ e := eraseTimer_fst_ne hwf.timerNd hmem (x, TKind.unlock) hx
        obtain ⟨q, hq, hqe2, hqcr2⟩ := hwf.timerUnlock x (hsub.subset hx)
        refine ⟨q, ?_, hqe2, hqcr2⟩
        rw [List.mem_filter]
        refine ⟨hq, ?_⟩
        simp only [Bool.not_eq_true', decide_eq_false_iff_not]
        rw [hqe2]
        exact hxe
      · intro x hx; exact hwf.timerLogo x (hsub.subset hx)
      · exact (hsub.map Prod.fst).nodup hwf.timerNd
      · intro x hx
        rcases List.mem_cons.mp hx with rfl | h
        · rcases hchain with h0 | h1
          · exact Or.inl h0
          · exact Or.inr (List.mem_cons_of_mem _ h1)
        · rcases hwf.setChain x h with h0 | h1
          · exact Or.inl h0
          · exact Or.inr (List.mem_cons_of_mem _ h1)
      · intro x hx
        rcases List.mem_cons.mp hx with rfl | h
        · exact hlt
        · exact hwf.setLt x h
      · intro q hq hcr
        rw [List.mem_filter] at hq
        rcases hwf.queueChain q hq.1 hcr with h0 | h1
        · exact Or.inl h0
        · exact Or.inr (List.mem_cons_of_mem _ h1)
    case logo =>
      have hen : e = n := hwf.timerLogo e hmem
      refine ⟨?_, hlognd, hwf.queueNd, hwf.queueSet, hwf.queueLt, ?_, ?_, ?_, ?_,
        htlog, hwf.setChain, hwf.setLt, hwf.queueChain⟩
      · intro x hx
        rcases List.mem_append.mp hx with h | h
        · exact hwf.logSet x h
        · rw [List.mem_singleton] at h
          exact Or.inl (h ▸ hen)
      · intro x hx; exact hwf.timerImm x (hsub.subset hx)
      · intro x hx; exact hwf.timerUnlock x (hsub.subset hx)
      · intro x hx; exact hwf.timerLogo x (hsub.subset hx)
      · exact (hsub.map Prod.fst).nodup hwf.timerNd

/-- Any single event-loop task preserves well-formedness. -/
theorem wf_stepCmd {n : ℕ} {d : ℕ → ℕ} {st : OrchState} (hwf : WF n st)
    (c : RevealCmd) : WF n (stepCmd n d st c) := by
  cases c with
  | std i b =>
    show WF n (observerEvent n d i b st)
    unfold observerEvent
    by_cases hg : (decide (i < n) && !decide (i ∈ st.revealLog)) = true
    · rw [if_pos hg]
      simp only [Bool.and_eq_true, Bool.not_eq_true', decide_eq_true_eq,
        decide_eq_false_iff_not] at hg
      exact wf_handle hwf hg.1 hg.2
    · rw [if_neg hg]; exact hwf
  | dTitle y t b =>
    show WF n (desktopTitleEvent n d y t b st)
    unfold desktopTitleEvent
    by_cases hg : (decide (0 < n) && !decide (0 ∈ st.revealLog)) = true
    · rw [if_pos hg]
      simp only [Bool.and_eq_true, Bool.not_eq_true', decide_eq_true_eq,
        decide_eq_false_iff_not] at hg
      split
      · exact hwf
      · exact wf_handle hwf hg.1 hg.2
    · rw [if_neg hg]; exact hwf
  | mTitle y b =>
    show WF n (mobileTitleEvent n d y b st)
    unfold mobileTitleEvent
    by_cases hg : (decide (0 < n) && !decide (0 ∈ st.revealLog)) = true
    · rw [if_pos hg]
      simp only [Bool.and_eq_true, Bool.not_eq_true', decide_eq_true_eq,
        decide_eq_false_iff_not] at hg
      have hwf1 : WF n { st with track := updateScrollTrack y st.track } :=
        ⟨hwf.logSet, hwf.logNd, hwf.queueNd, hwf.queueSet, hwf.queueLt, hwf.timerImm,
         hwf.timerUnlock, hwf.timerLogo, hwf.timerNd, hwf.timerLog, hwf.setChain,
         hwf.setLt, hwf.queueChain⟩
      dsimp only
      split
      · exact wf_handle hwf1 hg.1 hg.2
      · exact hwf1
    · rw [if_neg hg]; exact hwf
  | fire e k =>
    show WF n (fireTimer n e k st)
    exact wf_fire e k hwf

/-- Every reachable state of a page session is well formed. -/
theorem wf_runCmds (n : ℕ) (d : ℕ → ℕ) (cmds : List RevealCmd) :
    WF n (runCmds n d cmds) := by
  unfold runCmds
  induction cmds using List.reverseRecOn with
  | nil => exact wf_init n
  | append_singleton cs c ih =>
    rw [List.foldl_append, List.foldl_cons, List.foldl_nil]
    exact wf_stepCmd ih c

/-- C3 amended: an element B with a predecessor is Queued exactly when its
predecessor A is not yet in revealedElements, and in every reachable state
B has been marked or revealed only if A is in revealedElements. Because the
immediate path of handleElementIntersection inserts an element into
revealedElements already when its reveal timeout is scheduled (page.tsx
line 332) rather than when the revealed class is applied, the queueing test
sees a merely pending predecessor as done: B can bypass the queue, and even
display first, while A has not yet visibly Revealed. What the code
guarantees is membership ordering in revealedElements, not in the visible
reveal order. -/
theorem c3_amended :
    (∀ (n : ℕ) (d : ℕ → ℕ) (st : OrchState) (B : ℕ), 0 < B → B < n →
      B - 1 ∉ st.revealedSet → B ∉ st.revealedSet → B ∉ queueElems st.queue →
      B ∉ st.revealLog →
      observerEvent n d B true st =
        { st with queue := st.queue ++ [⟨B, d B, false⟩] }) ∧
    (∀ (n : ℕ) (d : ℕ → ℕ) (cmds : List RevealCmd) (B : ℕ), 0 < B →
      B ∈ (runCmds n d cmds).revealedSet →
      B - 1 ∈ (runCmds n d cmds).revealedSet) ∧
    (∀ (n : ℕ) (d : ℕ → ℕ) (cmds : List RevealCmd) (B : ℕ), 0 < B → B < n →
      B ∈ (runCmds n d cmds).revealLog →
      B - 1 ∈ (runCmds n d cmds).revealedSet) := by
  refine ⟨?_, ?_, ?_⟩
  · intro n d st B hB hlt hpred hset hq hlog
    unfold observerEvent handleElementIntersection canRevealElement
    simp [hlt, hlog, hset, hq, hpred, Nat.pos_iff_ne_zero.mp hB]
  · intro n d cmds B hB hmem
    rcases (wf_runCmds n d cmds).setChain B hmem with h0 | h1
    · exact absurd h0 (Nat.pos_iff_ne_zero.mp hB)
    · exact h1
  · intro n d cmds B hB hlt hmem
    rcases (wf_runCmds n d cmds).logSet B hmem with h0 | h1
    · exact absurd h0 (Nat.ne_of_lt hlt)
    · rcases (wf_runCmds n d cmds).setChain B h1 with h0 | h2
      · exact absurd h0 (Nat.pos_iff_ne_zero.mp hB)
      · exact h2

/-- Witness for C3 amended: with two elements and element 0 untouched,
the qualifying event for element 1 queues it; and on a concrete run where
both 0 and 1 end in revealedElements, the predecessor is there too. -/
theorem c3_amended_witness :
    (0 < 1 ∧ 1 < 2 ∧
      observerEvent 2 zeroDelays 1 true (initState 2) =
        { initState 2 with queue := (initState 2).queue ++ [⟨1, zeroDelays 1, false⟩] }) ∧
    (1 ∈ (runCmds 2 zeroDelays [RevealCmd.std 0 true, RevealCmd.std 1 true]).revealedSet ∧
      1 - 1 ∈ (runCmds 2 zeroDelays
        [RevealCmd.std 0 true, RevealCmd.std 1 true]).revealedSet) :=
  ⟨⟨by decide, by decide,
    c3_amended.1 2 zeroDelays (initState 2) 1 (by decide) (by decide) (by decide)
      (by decide) (by decide) (by decide)⟩,
   ⟨by decide,
    c3_amended.2.1 2 zeroDelays [RevealCmd.std 0 true, RevealCmd.std 1 true] 1
      (by decide) (by decide)⟩⟩

/-- C4: the Revealed transition of every element happens at most once per
page session (the reveal log of every reachable state has no duplicates),
and a visibility event for an element already carrying the revealed class
is a no-op in each of the three observers (page.tsx lines 413, 490, 536). -/
theorem c4_revealed_once :
    (∀ (n : ℕ) (d : ℕ → ℕ) (st : OrchState) (i : ℕ) (b : Bool),
      i ∈ st.revealLog → observerEvent n d i b st = st) ∧
    (∀ (n : ℕ) (d : ℕ → ℕ) (st : OrchState) (y t : ℚ) (b : Bool),
      0 ∈ st.revealLog → desktopTitleEvent n d y t b st = st) ∧
    (∀ (n : ℕ) (d : ℕ → ℕ) (st : OrchState) (y : ℚ) (b : Bool),
      0 ∈ st.revealLog → mobileTitleEvent n d y b st = st) ∧
    (∀ (n : ℕ) (d : ℕ → ℕ) (cmds : List RevealCmd),
      (runCmds n d cmds).revealLog.Nodup) := by
  refine ⟨?_, ?_, ?_, ?_⟩
  · intro n d st i b h
    unfold observerEvent
    simp [h]
  · intro n d st y t b h
    unfold desktopTitleEvent
    simp [h]
  · intro n d st y b h
    unfold mobileTitleEvent
    simp [h]
  · intro n d cmds
    exact (wf_runCmds n d cmds).logNd

/-- Witness for C4: after a full reveal of element 0 on a two-element page,
a second qualifying event for it changes nothing. -/
theorem c4_witness :
    (0 ∈ (runCmds 2 zeroDelays
        [RevealCmd.std 0 true, RevealCmd.fire 0 TKind.imm]).revealLog) ∧
    observerEvent 2 zeroDelays 0 true
        (runCmds 2 zeroDelays [RevealCmd.std 0 true, RevealCmd.fire 0 TKind.imm]) =
      runCmds 2 zeroDelays [RevealCmd.std 0 true, RevealCmd.fire 0 TKind.imm] :=
  ⟨by decide,
   c4_revealed_once.1 2 zeroDelays
     (runCmds 2 zeroDelays [RevealCmd.std 0 true, RevealCmd.fire 0 TKind.imm]) 0 true
     (by decide)⟩

/-! ## The six-element scenario of the specification

Five group-0 elements 0 to 4 are registered in document order (n = 5) next
to the always-available group-1 logo element, which the model identifies as
5 and whose load animation timer is pending from mount. The states a run of
this scenario can reach are captured exactly: before the last event arrives
(preState) and along the chained reveal afterwards (postState). -/

/-- The expected observer-event trace of the scenario, descending from k:
the qualifying events for elements k, k-1, ..., 0 in that order. -/
def descPairs : ℕ → List (ℕ × Bool)
  | 0 => [(0, true)]
  | k + 1 => (k + 1, true) :: descPairs k

/-- The scroll tracking state at mount, untouched by standard events. -/
def scenTrack : ScrollTrack :=
  { lastScrollY := 0, down := true, scrollStarted := false }

/-- The pending logo timer, present while the load animation has not
fired. -/
def logoT (b : Bool) : List (ℕ × TKind) := if b then [(5, TKind.logo)] else []

/-- The queue after the events for elements 4 down to k+1 have arrived and
queued (in arrival order), none of them unlocked. -/
def preQueue (d : ℕ → ℕ) (k : ℕ) : List QEntry :=
  (List.range (4 - k)).map fun j => ⟨4 - j, d (4 - j), false⟩

/-- A reachable state while the events for elements k, ..., 0 are still to
come: nothing revealed, the later elements queued, only the logo timer (if
unfired) pending. -/
def preState (d : ℕ → ℕ) (k : ℕ) (b : Bool) (lg : List ℕ) : OrchState :=
  { revealedSet := [], revealLog := lg, queue := preQueue d k,
    timers := logoT b, track := scenTrack }

/-- revealedElements during the chained reveal: after i visible reveals,
the elements marked for reveal are 0, ..., max i 1 - 1 (element 0 is
marked already when its timeout is scheduled). -/
def scenSet (i : ℕ) : List ℕ := (List.range (max i 1)).reverse

/-- The queue during the chained reveal after i visible reveals: elements
4 down to i+1 still waiting, element i unlocked (for 1 ≤ i ≤ 4). -/
def scenQueue (d : ℕ → ℕ) (i : ℕ) : List QEntry :=
  preQueue d i ++ (if 1 ≤ i ∧ i ≤ 4 then [⟨i, d i, true⟩] else [])

/-- The reveal timeout pending after i visible reveals: the immediate one
of element 0 first, then the unlock one of element i, none after 5. -/
def scenChain : ℕ → List (ℕ × TKind)
  | 0 => [(0, TKind.imm)]
  | i + 1 => if i + 1 ≤ 4 then [(i + 1, TKind.unlock)] else []

/-- A reachable state after all five events arrived: i elements visibly
revealed, the chain timer of the next one pending. -/
def postState (d : ℕ → ℕ) (i : ℕ) (b : Bool) (lg : List ℕ) : OrchState :=
  { revealedSet := scenSet i, revealLog := lg, queue := scenQueue d i,
    timers := logoT b ++ scenChain i, track := scenTrack }

/-- The invariant of the scenario: pending observer events plus the exact
state shape. The reveal log is constrained only through its group-0 part,
which is empty before the chain starts and 0, ..., i-1 afterwards. -/
def scenInv (d : ℕ → ℕ) (pending : List (ℕ × Bool)) (st : OrchState) : Prop :=
  (∃ k b lg, k ≤ 4 ∧ pending = descPairs k ∧
    lg.filter (fun e => decide (e < 5)) = [] ∧ st = preState d k b lg) ∨
  (pending = [] ∧ ∃ i b lg, i ≤ 5 ∧
    lg.filter (fun e => decide (e < 5)) = List.range i ∧ st = postState d i b lg)

/-- Elements below 5 are absent from a log whose group-0 part is empty. -/
theorem notmem_of_filter_eq_nil {lg : List ℕ} {k : ℕ}
    (hlg : lg.filter (fun e => decide (e < 5)) = []) (hk : k < 5) : k ∉ lg := by
  intro hmem
  have : k ∈ lg.filter (fun e => decide (e < 5)) :=
    List.mem_filter.mpr ⟨hmem, by simpa using hk⟩
  rw [hlg] at this
  cases this

/-- Logging the logo does not change the group-0 part of the log. -/
theorem filter_append_logo (lg : List ℕ) :
    (lg ++ [5]).filter (fun e => decide (e < 5)) =
      lg.filter (fun e => decide (e < 5)) := by
  simp [List.filter_append]

/-- Logging a group-0 element appends it to the group-0 part of the log. -/
theorem filter_append_lt (lg : List ℕ) (i : ℕ) (h : i < 5) :
    (lg ++ [i]).filter (fun e => decide (e < 5)) =
      lg.filter (fun e => decide (e < 5)) ++ [i] := by
  simp [List.filter_append, h]

/-- Delivering the event of element 0 last turns the waiting state into the
start of the chained reveal. -/
theorem scen_pre_event0 (d : ℕ → ℕ) (b : Bool) (lg : List ℕ)
    (hlg : lg.filter (fun e => decide (e < 5)) = []) :
    stepCmd 5 d (preState d 0 b lg) (RevealCmd.std 0 true) = postState d 0 b lg := by
  have hk : (0 : ℕ) ∉ lg := notmem_of_filter_eq_nil hlg (by norm_num)
  show observerEvent 5 d 0 true (preState d 0 b lg) = postState d 0 b lg
  unfold observerEvent handleElementIntersection canRevealElement
  simp [queueElems, preQueue, preState, postState, scenSet, scenQueue, scenChain, hk]
  rw [if_pos (by omega)]
  rfl

/-- Delivering the event of a later element while its predecessor is
untouched queues it. -/
theorem scen_pre_eventS (d : ℕ → ℕ) (k : ℕ) (b : Bool) (lg : List ℕ)
    (hk : k ≤ 3) (hlg : lg.filter (fun e => decide (e < 5)) = []) :
    stepCmd 5 d (preState d (k + 1) b lg) (RevealCmd.std (k + 1) true) =
      preState d k b lg := by
  have hkl : (k + 1) ∉ lg := notmem_of_filter_eq_nil hlg (by omega)
  show observerEvent 5 d (k + 1) true (preState d (k + 1) b lg) = preState d k b lg
  interval_cases k <;>
  · unfold observerEvent handleElementIntersection canRevealElement
    simp [queueElems, preQueue, preState, hkl, List.range_succ]

/-- Firing any timeout while events are still pending either does nothing
or fires the logo animation. -/
theorem scen_pre_fire (d : ℕ → ℕ) (k : ℕ) (b : Bool) (lg : List ℕ) (e : ℕ)
    (tk : TKind) (hlg : lg.filter (fun x => decide (x < 5)) = []) :
    ∃ b' lg', lg'.filter (fun x => decide (x < 5)) = [] ∧
      stepCmd 5 d (preState d k b lg) (RevealCmd.fire e tk) = preState d k b' lg' := by
  cases b with
  | false =>
    refine ⟨false, lg, hlg, ?_⟩
    show fireTimer 5 e tk (preState d k false lg) = preState d k false lg
    exact fireTimer_not_mem (by simp [preState, logoT])
  | true =>
    by_cases h : (e, tk) = (5, TKind.logo)
    · obtain ⟨rfl, rfl⟩ := Prod.mk.injEq .. |>.mp h
      refine ⟨false, lg ++ [5], by rw [filter_append_logo, hlg], ?_⟩
      show fireTimer 5 5 TKind.logo (preState d k true lg) = preState d k false (lg ++ [5])
      unfold fireTimer preState logoT
      simp [eraseTimer]
    · refine ⟨true, lg, hlg, ?_⟩
      show fireTimer 5 e tk (preState d k true lg) = preState d k true lg
      exact fireTimer_not_mem (by simp [preState, logoT, h])

/-- Firing the pending logo animation during the chained reveal only logs
the logo. -/
theorem scen_post_fire_logo (d : ℕ → ℕ) (i : ℕ) (lg : List ℕ) :
    fireTimer 5 5 TKind.logo (postState d i true lg) = postState d i false (lg ++ [5]) := by
  unfold fireTimer postState logoT
  simp [eraseTimer]

/-- Firing the pending chain timeout of phase i logs element i and unlocks
element i+1. -/
theorem scen_post_fire_chain (d : ℕ → ℕ) (lg : List ℕ) (i : ℕ) (b : Bool) (hi : i ≤ 4) :
    fireTimer 5 i (if i = 0 then TKind.imm else TKind.unlock) (postState d i b lg) =
      postState d (i + 1) b (lg ++ [i]) := by
  interval_cases i <;> cases b <;>
  · unfold fireTimer postState logoT scenChain scenSet scenQueue preQueue
    simp [eraseTimer, processPendingAnimations, canRevealElement, List.range_succ,
      queueElems]

/-- Firing any timeout during the chained reveal keeps the state in the
post family. -/
theorem scen_post_fire (d : ℕ → ℕ) (i : ℕ) (b : Bool) (lg : List ℕ) (e : ℕ)
    (tk : TKind) (hi : i ≤ 5) (hf : lg.filter (fun x => decide (x < 5)) = List.range i) :
    ∃ i' b' lg', i' ≤ 5 ∧ lg'.filter (fun x => decide (x < 5)) = List.range i' ∧
      stepCmd 5 d (postState d i b lg) (RevealCmd.fire e tk) = postState d i' b' lg' := by
  by_cases hL : b = true ∧ (e, tk) = (5, TKind.logo)
  · obtain ⟨rfl, h2⟩ := hL
    obtain ⟨rfl, rfl⟩ := Prod.mk.injEq .. |>.mp h2
    exact ⟨i, false, lg ++ [5], hi, by rw [filter_append_logo, hf],
      scen_post_fire_logo d i lg⟩
  · by_cases hC : i ≤ 4 ∧ (e, tk) = (i, if i = 0 then TKind.imm else TKind.unlock)
    · obtain ⟨hi4, h2⟩ := hC
      obtain ⟨he, htk⟩ := Prod.mk.injEq .. |>.mp h2
      refine ⟨i + 1, b, lg ++ [i], by omega, ?_, ?_⟩
      · rw [filter_append_lt lg i (by omega), hf, List.range_succ]
      · rw [show RevealCmd.fire e tk =
            RevealCmd.fire i (if i = 0 then TKind.imm else TKind.unlock) from by
          rw [he, htk]]
        exact scen_post_fire_chain d lg i b hi4
    · refine ⟨i, b, lg, hi, hf, ?_⟩
      show fireTimer 5 e tk (postState d i b lg) = postState d i b lg
      apply fireTimer_not_mem
      intro hmem
      rcases List.mem_append.mp hmem with h | h
      · cases b with
        | false => cases h
        | true =>
          rw [logoT, if_pos rfl, List.mem_singleton] at h
          exact hL ⟨rfl, h⟩
      · cases i with
        | zero =>
          rw [scenChain, List.mem_singleton] at h
          exact hC ⟨by omega, by simpa using h⟩
        | succ j =>
          rw [scenChain] at h
          by_cases hj : j + 1 ≤ 4
          · rw [if_pos hj, List.mem_singleton] at h
            refine hC ⟨hj, ?_⟩
            rw [if_neg (Nat.succ_ne_zero j)]
            exact h
          · rw [if_neg hj] at h
            cases h

/-- The scenario induction: from any invariant state, a task list whose
observer events are exactly the pending ones leaves the group-0 part of the
reveal log an ascending segment of the document order. -/
theorem scen_run (d : ℕ → ℕ) :
    ∀ (cmds : List RevealCmd) (st : OrchState) (pending : List (ℕ × Bool)),
      scenInv d pending st →
      cmds.filterMap cmdEvents = pending →
      ∃ m, (cmds.foldl (stepCmd 5 d) st).revealLog.filter (fun e => decide (e < 5)) =
        [0, 1, 2, 3, 4].take m := by
  intro cmds
  induction cmds with
  | nil =>
    intro st pending hinv hev
    simp only [List.filterMap_nil] at hev
    rw [List.foldl_nil]
    rcases hinv with ⟨k, b, lg, hk, hpend, hlg, rfl⟩ | ⟨-, i, b, lg, hi, hlg, rfl⟩
    · exact ⟨0, by simpa [preState] using hlg⟩
    · refine ⟨i, ?_⟩
      show lg.filter _ = _
      rw [hlg, show ([0, 1, 2, 3, 4] : List ℕ) = List.range 5 from rfl,
        List.take_range, min_eq_left hi]
  | cons c cs ih =>
    intro st pending hinv hev
    rw [List.filterMap_cons] at hev
    rw [List.foldl_cons]
    cases c with
    | fire e tk =>
      simp only [cmdEvents] at hev
      rcases hinv with ⟨k, b, lg, hk, hpend, hlg, rfl⟩ | ⟨hpend, i, b, lg, hi, hlg, rfl⟩
      · obtain ⟨b', lg', hlg', hstep⟩ := scen_pre_fire d k b lg e tk hlg
        rw [hstep]
        exact ih _ pending (Or.inl ⟨k, b', lg', hk, hpend, hlg', rfl⟩) hev
      · obtain ⟨i', b', lg', hi', hlg', hstep⟩ := scen_post_fire d i b lg e tk hi hlg
        rw [hstep]
        exact ih _ pending (Or.inr ⟨hpend, i', b', lg', hi', hlg', rfl⟩) hev
    | std j binter =>
      simp only [cmdEvents] at hev
      rcases hinv with ⟨k, b, lg, hk, hpend, hlg, rfl⟩ | ⟨hpend, -⟩
      · rw [hpend] at hev
        cases k with
        | zero =>
          rw [show descPairs 0 = [(0, true)] from rfl] at hev
          injection hev with h1 h2
          obtain ⟨rfl, rfl⟩ := Prod.mk.injEq .. |>.mp h1
          rw [scen_pre_event0 d b lg hlg]
          refine ih _ [] (Or.inr ⟨rfl, 0, b, lg, by omega, ?_, rfl⟩) h2
          simpa using hlg
        | succ k' =>
          rw [show descPairs (k' + 1) = (k' + 1, true) :: descPairs k' from rfl] at hev
          injection hev with h1 h2
          obtain ⟨rfl, rfl⟩ := Prod.mk.injEq .. |>.mp h1
          rw [scen_pre_eventS d k' b lg (by omega) hlg]
          exact ih _ (descPairs k') (Or.inl ⟨k', b, lg, by omega, rfl, hlg, rfl⟩) h2
      · rw [hpend] at hev
        cases hev
    | dTitle y t binter =>
      simp only [cmdEvents] at hev
      exfalso
      rcases hinv with ⟨k, b, lg, hk, hpend, -, -⟩ | ⟨hpend, -⟩
      · rw [hpend] at hev
        cases k with
        | zero =>
          rw [show descPairs 0 = [(0, true)] from rfl] at hev
          injection hev with h1 htl
          have := (Prod.mk.injEq .. |>.mp h1).1
          omega
        | succ k' =>
          rw [show descPairs (k' + 1) = (k' + 1, true) :: descPairs k' from rfl] at hev
          injection hev with h1 htl
          have := (Prod.mk.injEq .. |>.mp h1).1
          omega
      · rw [hpend] at hev
        cases hev
    | mTitle y binter =>
      simp only [cmdEvents] at hev
      exfalso
      rcases hinv with ⟨k, b, lg, hk, hpend, -, -⟩ | ⟨hpend, -⟩
      · rw [hpend] at hev
        cases k with
        | zero =>
          rw [show descPairs 0 = [(0, true)] from rfl] at hev
          injection hev with h1 htl
          have := (Prod.mk.injEq .. |>.mp h1).1
          omega
        | succ k' =>
          rw [show descPairs (k' + 1) = (k' + 1, true) :: descPairs k' from rfl] at hev
          injection hev with h1 htl
          have := (Prod.mk.injEq .. |>.mp h1).1
          omega
      · rw [hpend] at hev
        cases hev

/-- C1 amended: in the scenario of five group-0 elements registered in
document order next to the independently revealed group-1 logo element,
whenever the five qualifying events are processed in their reverse document
arrival order, the group-0 elements reveal in ascending document order (the
group-0 part of the reveal log is an ascending initial segment of
0,1,2,3,4), for every per-element delay assignment and every interleaving
of timer fires with the events, which covers all arrival timings. The
group-1 logo reveals at its own independent load-animation time and is not
ordered relative to the others, and processing the same batch of events in
a different order can change the reveal order (see the counterexample). -/
theorem c1_amended (d : ℕ → ℕ) (cmds : List RevealCmd)
    (hev : cmds.filterMap cmdEvents =
      [(4, true), (3, true), (2, true), (1, true), (0, true)]) :
    ∃ m, (runCmds 5 d cmds).revealLog.filter (fun e => decide (e < 5)) =
      [0, 1, 2, 3, 4].take m := by
  have hinit : scenInv d (descPairs 4) (initState 5) :=
    Or.inl ⟨4, true, [], by omega, rfl, rfl, rfl⟩
  exact scen_run d cmds (initState 5) (descPairs 4) hinit (by rw [hev]; rfl)

/-- Witness for C1 amended: the reverse-order trace with all timeouts
fired, whose reveal log is the full ascending order. -/
theorem c1_amended_witness :
    ([RevealCmd.std 4 true, RevealCmd.std 3 true, RevealCmd.std 2 true,
      RevealCmd.std 1 true, RevealCmd.std 0 true, RevealCmd.fire 5 TKind.logo,
      RevealCmd.fire 0 TKind.imm, RevealCmd.fire 1 TKind.unlock,
      RevealCmd.fire 2 TKind.unlock, RevealCmd.fire 3 TKind.unlock,
      RevealCmd.fire 4 TKind.unlock].filterMap cmdEvents =
      [(4, true), (3, true), (2, true), (1, true), (0, true)]) ∧
    ∃ m, (runCmds 5 pageDelays
      [RevealCmd.std 4 true, RevealCmd.std 3 true, RevealCmd.std 2 true,
       RevealCmd.std 1 true, RevealCmd.std 0 true, RevealCmd.fire 5 TKind.logo,
       RevealCmd.fire 0 TKind.imm, RevealCmd.fire 1 TKind.unlock,
       RevealCmd.fire 2 TKind.unlock, RevealCmd.fire 3 TKind.unlock,
       RevealCmd.fire 4 TKind.unlock]).revealLog.filter (fun e => decide (e < 5)) =
      [0, 1, 2, 3, 4].take m :=
  ⟨by decide,
   c1_amended pageDelays
     [RevealCmd.std 4 true, RevealCmd.std 3 true, RevealCmd.std 2 true,
      RevealCmd.std 1 true, RevealCmd.std 0 true, RevealCmd.fire 5 TKind.logo,
      RevealCmd.fire 0 TKind.imm, RevealCmd.fire 1 TKind.unlock,
      RevealCmd.fire 2 TKind.unlock, RevealCmd.fire 3 TKind.unlock,
      RevealCmd.fire 4 TKind.unlock] (by decide)⟩
